import Mathlib

/-!
# Verification of the cl-project knowledge-graph pipeline

A shallow embedding, in Lean 4, of the parts of the repository that the
verified claims are about:

* `src/query_system/query_processor.py` — regex-based natural-language
  question processing (`QueryProcessor`),
* `src/knowledge_graph/relation_extractor.py` — relation filtering
  (`RelationExtractor`),
* `src/knowledge_graph/entity_normalizer.py` — entity normalization
  (`EntityNormalizer`),
* `src/knowledge_graph/kg_builder.py` — RDF graph construction
  (`KnowledgeGraphBuilder`),
* `src/query_system/kg_executor.py` — statistics over the graph
  (`KGExecutor.get_stats`).

Python strings are modelled as `List Char`; Python floats that only ever
hold exact literals (the confidence values 1.0, 0.8, 0.3) are modelled
as rationals.  Calls to the external LLM (Ollama) are modelled as oracle
inputs: the deterministic remainder of each function is parametrised by
the parsed LLM response.  String predicates from Python's `re` module
(`\w`, `\s`, `lower`) are modelled on the character ranges the
repository's data actually uses (ASCII plus Latin-1 letters); this
matches Python on every input appearing in the claims.
-/

namespace CLP

/-! ## Python string primitives -/

/-- Python `str.lower` on a character (ASCII and Latin-1 letter ranges). -/
def pyCharLower (c : Char) : Char :=
  if 65 ≤ c.toNat ∧ c.toNat ≤ 90 then Char.ofNat (c.toNat + 32)
  else if 192 ≤ c.toNat ∧ c.toNat ≤ 222 ∧ c.toNat ≠ 215 then Char.ofNat (c.toNat + 32)
  else c

/-- Python `str.lower`. -/
def pyLower (s : List Char) : List Char := s.map pyCharLower

/-- Python whitespace (`str.isspace` / regex `\s`) for the ASCII range. -/
def isPySpace (c : Char) : Bool :=
  c == ' ' || c == '\t' || c == '\n' || c == '\r' || c.toNat == 11 || c.toNat == 12

/-- Python `str.strip()` (no argument: strips whitespace at both ends). -/
def pyStrip (s : List Char) : List Char :=
  ((s.dropWhile isPySpace).reverse.dropWhile isPySpace).reverse

/-- Python `str.strip(ch)` for a single character argument. -/
def pyStripChar (ch : Char) (s : List Char) : List Char :=
  ((s.dropWhile (fun c => c == ch)).reverse.dropWhile (fun c => c == ch)).reverse

/-- Helper for `pySplitWs`: accumulates the current word (reversed). -/
def pySplitWsAux : List Char → List Char → List (List Char)
  | [], cur => if cur = [] then [] else [cur.reverse]
  | c :: t, cur =>
    if isPySpace c then
      if cur = [] then pySplitWsAux t [] else cur.reverse :: pySplitWsAux t []
    else pySplitWsAux t (c :: cur)

/-- Python `str.split()` (no argument: split on whitespace runs, no empties). -/
def pySplitWs (s : List Char) : List (List Char) := pySplitWsAux s []

/-- Test whether `s` starts with `p` (Python `str.startswith`). -/
def listStartsWith : List Char → List Char → Bool
  | _, [] => true
  | [], _ :: _ => false
  | c :: s, p :: ps => p == c && listStartsWith s ps

/-- Python's substring test `pat in s`. -/
def pyIn (pat : List Char) : List Char → Bool
  | [] => listStartsWith [] pat
  | c :: t => listStartsWith (c :: t) pat || pyIn pat t

/-- ASCII letter test (regex `[a-zA-Z]`). -/
def isAsciiAlpha (c : Char) : Bool :=
  ('a' ≤ c && c ≤ 'z') || ('A' ≤ c && c ≤ 'Z')

/-- ASCII digit test (regex `[0-9]`). -/
def isAsciiDigit (c : Char) : Bool := '0' ≤ c && c ≤ '9'

/-- Regex `\w` (word character), on the ASCII range used by the repository. -/
def isPyWord (c : Char) : Bool := isAsciiAlpha c || isAsciiDigit c || c == '_'

/-! ## A small regex engine

The query processor uses `re.search(pattern, question, re.IGNORECASE)` on a
fixed list of patterns.  In every one of those patterns, the quantifiers
`+`, `*`, `*?`, `?` are applied only to single character classes or single
characters, so the engine below supports exactly that grammar: literals,
concatenation, alternation, capture groups, and quantified character
classes.  Matching produces, in Python's backtracking priority order
(left alternative first, greedy longest-first, lazy shortest-first), the
list of all (remaining input, captures) pairs; `reSearch` takes the first
match at the leftmost matching position, exactly as `re.search` does. -/

/-- The character classes occurring in the processor's patterns. -/
inductive CharClass where
  | wordSpace     -- the class [a-zA-Z_\s]
  | space         -- the class \s
  | anyChar       -- the class . (any char except newline)
deriving DecidableEq

def CharClass.test : CharClass → Char → Bool
  | .wordSpace, c => isAsciiAlpha c || c == '_' || isPySpace c
  | .space, c => isPySpace c
  | .anyChar, c => !(c == '\n')

/-- Regular expressions in the fragment used by `QueryProcessor`. -/
inductive RE where
  | fail
  | lit (cs : List Char)
  | seq (a b : RE)
  | alt (a b : RE)
  | grp (n : Nat) (a : RE)
  | plus (cc : CharClass)       -- greedy +
  | star (cc : CharClass)       -- greedy *
  | starLazy (cc : CharClass)   -- lazy *?
  | optChr (c : Char)           -- greedy ? on a single character

/-- Case-insensitive literal match (re.IGNORECASE); returns the rest of
the input on success. -/
def litMatch : List Char → List Char → Option (List Char)
  | s, [] => some s
  | [], _ :: _ => none
  | c :: s, p :: ps =>
    if pyCharLower c == pyCharLower p then litMatch s ps else none

/-- Length of the maximal run of class characters at the head of the input. -/
def classRun (cc : CharClass) : List Char → Nat
  | [] => 0
  | c :: t => if cc.test c then classRun cc t + 1 else 0

/-- Captured groups: group number ↦ captured text. -/
abbrev Caps := List (Nat × List Char)

/-- All ways a regex can match a prefix of the input, as
(remaining input, captures) pairs in backtracking priority order. -/
def mrun : RE → List Char → List (List Char × Caps)
  | .fail, _ => []
  | .lit cs, s =>
    match litMatch s cs with
    | some r => [(r, [])]
    | none => []
  | .seq a b, s =>
    (mrun a s).flatMap (fun pr => (mrun b pr.1).map (fun qr => (qr.1, pr.2 ++ qr.2)))
  | .alt a b, s => mrun a s ++ mrun b s
  | .grp n a, s =>
    (mrun a s).map (fun pr => (pr.1, (n, s.take (s.length - pr.1.length)) :: pr.2))
  | .plus cc, s =>
    ((List.range' 1 (classRun cc s)).map (fun i => (s.drop i, ([] : Caps)))).reverse
  | .star cc, s =>
    ((List.range (classRun cc s + 1)).map (fun i => (s.drop i, ([] : Caps)))).reverse
  | .starLazy cc, s =>
    (List.range (classRun cc s + 1)).map (fun i => (s.drop i, ([] : Caps)))
  | .optChr c, s =>
    match s with
    | [] => [([], [])]
    | d :: t =>
      if pyCharLower d == pyCharLower c then [(t, []), (d :: t, [])] else [(d :: t, [])]

/-- Model of `re.search`: try each start position left to right, returning the
captures of the first (highest-priority) match. -/
def reSearch (re : RE) : List Char → Option Caps
  | [] =>
    match mrun re [] with
    | pr :: _ => some pr.2
    | [] => none
  | c :: t =>
    match mrun re (c :: t) with
    | pr :: _ => some pr.2
    | [] => reSearch re t

/-- Model of `match.group(n)` (every group in the processor's patterns is
non-optional, so a matched pattern always binds its groups). -/
def capGroup (caps : Caps) (n : Nat) : List Char :=
  ((caps.find? (fun pr => pr.1 == n)).map Prod.snd).getD []

/-- Concatenation of a list of regexes. -/
def reCat (rs : List RE) : RE :=
  match rs with
  | [] => RE.lit []
  | r :: rest => rest.foldl RE.seq r

/-- Alternation `(?:a|b|…)` of a list of regexes. -/
def reAlts (rs : List RE) : RE :=
  match rs with
  | [] => RE.fail
  | r :: rest => rest.foldl RE.alt r

/-- String literal regex. -/
def rlit (s : String) : RE := RE.lit s.data

/-! ## `query_processor.py` : `QueryProcessor` -/

/-- The `QueryType` enum from `query_templates.py`. -/
inductive QueryType where
  | WHAT_IS
  | WHAT_USES
  | WHAT_IS_TYPE_OF
  | WHO_CREATED
  | HOW_RELATED
  | LIST_BY_TYPE
  | FIND_SIMILAR
deriving DecidableEq

/-- The `QueryIntent` dataclass.  A raised exception is modelled by
`processQuestion` returning `none`; a returned intent by `some`. -/
structure QueryIntent where
  query_type : QueryType
  entities : List (List Char)
  confidence : ℚ
  raw_question : List Char
deriving DecidableEq

/-- The list `self.what_is_patterns`. -/
def whatIsPatterns : List RE :=
  [ reCat [reAlts [rlit "o que é", rlit "what is", rlit "define",
                   rlit "definição de", rlit "conceito de"],
           RE.plus .space, RE.grp 1 (RE.plus .wordSpace)],
    reCat [RE.grp 1 (RE.plus .wordSpace), RE.plus .space,
           reAlts [rlit "é o que", rlit "é", rlit "significa o que"]],
    reCat [reAlts [rlit "explique", rlit "explain"],
           RE.plus .space, RE.grp 1 (RE.plus .wordSpace)] ]

/-- The list `self.what_uses_patterns`. -/
def whatUsesPatterns : List RE :=
  [ reCat [reAlts [rlit "o que usa", rlit "what uses",
                   reCat [rlit "quai", RE.optChr 's', RE.star .anyChar,
                          rlit "usa", RE.optChr 'm'],
                   reCat [rlit "algoritmo", RE.optChr 's', rlit " que usa", RE.optChr 'm']],
           RE.plus .space, RE.grp 1 (RE.plus .wordSpace)],
    reCat [reAlts [reCat [rlit "quai", RE.optChr 's'], rlit "what"],
           RE.star .anyChar,
           reAlts [reCat [rlit "implementa", RE.optChr 'm'], rlit "implement"],
           RE.plus .space, RE.grp 1 (RE.plus .wordSpace)],
    reCat [reAlts [rlit "find", rlit "encontre"],
           RE.star .anyChar,
           reAlts [rlit "que usa", reCat [rlit "that use", RE.optChr 's']],
           RE.plus .space, RE.grp 1 (RE.plus .wordSpace)] ]

/-- The list `self.type_of_patterns`. -/
def typeOfPatterns : List RE :=
  [ reCat [RE.grp 1 (RE.plus .wordSpace), RE.plus .space,
           reAlts [rlit "é um tipo de que", rlit "is a type of what",
                   rlit "é uma subclasse de"]],
    reCat [reAlts [rlit "que tipo de", rlit "what type of"],
           RE.star .anyChar, reAlts [rlit "é", rlit "is"],
           RE.plus .space, RE.grp 1 (RE.plus .wordSpace)],
    reCat [RE.grp 1 (RE.plus .wordSpace), RE.plus .space,
           reAlts [rlit "extends", rlit "estende", rlit "herda de"]] ]

/-- The list `self.who_created_patterns`. -/
def whoCreatedPatterns : List RE :=
  [ reCat [reAlts [rlit "quem criou", rlit "who created",
                   rlit "quem desenvolveu", rlit "who developed"],
           RE.plus .space, RE.grp 1 (RE.plus .wordSpace)],
    reCat [reAlts [rlit "autor de", rlit "author of", rlit "creator of"],
           RE.plus .space, RE.grp 1 (RE.plus .wordSpace)],
    reCat [RE.grp 1 (RE.plus .wordSpace), RE.plus .space,
           reAlts [rlit "foi criado por", rlit "was created by",
                   rlit "foi desenvolvido por"]] ]

/-- The list `self.how_related_patterns`. -/
def howRelatedPatterns : List RE :=
  [ reCat [reAlts [rlit "como", rlit "how"], RE.plus .space,
           RE.grp 1 (RE.plus .wordSpace), RE.plus .space,
           reAlts [rlit "está relacionado com", rlit "is related to",
                   rlit "se relaciona com"],
           RE.plus .space, RE.grp 2 (RE.plus .wordSpace)],
    reCat [reAlts [rlit "relação entre", rlit "relationship between"],
           RE.plus .space, RE.grp 1 (RE.plus .wordSpace), RE.plus .space,
           reAlts [rlit "e", rlit "and"],
           RE.plus .space, RE.grp 2 (RE.plus .wordSpace)] ]

/-- The capture group `(algoritmos?|algorithms?|conceitos?|concepts?|métricas?|metrics?)`. -/
def typeWordAlt : RE :=
  reAlts [reCat [rlit "algoritmo", RE.optChr 's'],
          reCat [rlit "algorithm", RE.optChr 's'],
          reCat [rlit "conceito", RE.optChr 's'],
          reCat [rlit "concept", RE.optChr 's'],
          reCat [rlit "métrica", RE.optChr 's'],
          reCat [rlit "metric", RE.optChr 's']]

/-- The list `self.list_by_type_patterns`. -/
def listByTypePatterns : List RE :=
  [ reCat [reAlts [rlit "liste", rlit "list", rlit "quais são", rlit "what are"],
           RE.starLazy .anyChar, RE.grp 1 typeWordAlt],
    reCat [reAlts [rlit "todos os", rlit "all", rlit "all the"],
           RE.plus .space, RE.grp 1 typeWordAlt],
    reCat [reAlts [rlit "show", rlit "mostre"],
           RE.starLazy .anyChar, RE.grp 1 typeWordAlt] ]

/-- The list `self.find_similar_patterns`. -/
def findSimilarPatterns : List RE :=
  [ reCat [reAlts [rlit "encontre", rlit "find", rlit "busque"],
           RE.star .anyChar,
           reAlts [rlit "similar", rlit "parecido", rlit "semelhante"],
           RE.star .anyChar, reAlts [rlit "a", rlit "to", rlit "with"],
           RE.plus .space, RE.grp 1 (RE.plus .wordSpace)],
    reCat [reAlts [reCat [rlit "conceito", RE.optChr 's'],
                   reCat [rlit "algorithm", RE.optChr 's']],
           RE.star .anyChar,
           reAlts [rlit "similar", rlit "parecido", rlit "semelhante"],
           RE.star .anyChar, reAlts [rlit "a", rlit "to"],
           RE.plus .space, RE.grp 1 (RE.plus .wordSpace)] ]

/-- The `stop_words` list inside `_normalize_entity_name`. -/
def stopWords : List (List Char) :=
  ["o".data, "a".data, "os".data, "as".data, "de".data, "da".data,
   "do".data, "das".data, "dos".data, "the".data, "of".data, "for".data]

/-- Model of `QueryProcessor._normalize_entity_name`: lowercase, split, drop
stop-words, join with underscores, strip characters outside `[a-z0-9_]`. -/
def normalizeEntityName (entity : List Char) : List Char :=
  let words := pySplitWs (pyLower entity)
  let filtered_words := words.filter (fun w => !(stopWords.contains w))
  let normalized := List.intercalate ['_'] filtered_words
  normalized.filter (fun c =>
    ('a' ≤ c && c ≤ 'z') || ('0' ≤ c && c ≤ '9') || c == '_')

/-- Model of `QueryProcessor._extract_single_entity`. -/
def extractSingleEntity (caps : Caps) : List (List Char) :=
  [normalizeEntityName (pyStrip (capGroup caps 1))]

/-- Model of `QueryProcessor._extract_two_entities`. -/
def extractTwoEntities (caps : Caps) : List (List Char) :=
  [normalizeEntityName (pyStrip (capGroup caps 1)),
   normalizeEntityName (pyStrip (capGroup caps 2))]

/-- The `type_mapping` dictionary inside `_extract_type_entity`. -/
def typeMapping : List (List Char × List Char) :=
  [("algoritmos".data, "algorithm".data), ("algoritmo".data, "algorithm".data),
   ("algorithms".data, "algorithm".data), ("algorithm".data, "algorithm".data),
   ("conceitos".data, "concept".data), ("conceito".data, "concept".data),
   ("concepts".data, "concept".data), ("concept".data, "concept".data),
   ("métricas".data, "metric".data), ("métrica".data, "metric".data),
   ("metrics".data, "metric".data), ("metric".data, "metric".data)]

/-- Model of `QueryProcessor._extract_type_entity`. -/
def extractTypeEntity (caps : Caps) : List (List Char) :=
  let entity_type := pyStrip (capGroup caps 1)
  [((typeMapping.find? (fun pr => pr.1 == pyLower entity_type)).map Prod.snd).getD
     entity_type]

/-- The `intent_checks` list of `process_question`, in priority order. -/
def intentChecks :
    List (List RE × QueryType × (Caps → List (List Char))) :=
  [ (whatIsPatterns, QueryType.WHAT_IS, extractSingleEntity),
    (whatUsesPatterns, QueryType.WHAT_USES, extractSingleEntity),
    (typeOfPatterns, QueryType.WHAT_IS_TYPE_OF, extractSingleEntity),
    (whoCreatedPatterns, QueryType.WHO_CREATED, extractSingleEntity),
    (howRelatedPatterns, QueryType.HOW_RELATED, extractTwoEntities),
    (listByTypePatterns, QueryType.LIST_BY_TYPE, extractTypeEntity),
    (findSimilarPatterns, QueryType.FIND_SIMILAR, extractSingleEntity) ]

/-- The inner loop of `process_question`: first pattern in `pats` that
matches and whose extracted entity list is non-empty. -/
def firstMatch (q : List Char) (extract : Caps → List (List Char)) :
    List RE → Option (List (List Char))
  | [] => none
  | p :: ps =>
    match reSearch p q with
    | some caps =>
      let entities := extract caps
      if entities ≠ [] then some entities else firstMatch q extract ps
    | none => firstMatch q extract ps

/-- The outer loop of `process_question` over `intent_checks`. -/
def matchChecks (q : List Char) :
    List (List RE × QueryType × (Caps → List (List Char))) →
    Option (QueryType × List (List Char))
  | [] => none
  | (pats, qt, ex) :: rest =>
    match firstMatch q ex pats with
    | some entities => some (qt, entities)
    | none => matchChecks q rest

/-- Model of `QueryProcessor.process_question`.  Returns `none` exactly when the
Python code raises (the `question.split()[-1]` IndexError on an input
with no whitespace-separated token). -/
def processQuestion (question : List Char) : Option QueryIntent :=
  let q := pyStrip (pyLower question)
  match matchChecks q intentChecks with
  | some (qt, entities) => some ⟨qt, entities, 0.8, q⟩
  | none =>
    match (pySplitWs q).getLast? with
    | some w => some ⟨QueryType.WHAT_IS, [w], 0.3, q⟩
    | none => none

/-! ## `relation_extractor.py` : `RelationExtractor` -/

/-- The `Relation` dataclass. -/
structure Relation where
  subject : List Char
  predicate : List Char
  object : List Char
  chunk_id : List Char
  confidence : ℚ
  context : List Char
deriving DecidableEq

/-- A `TextChunk` (only the fields `extract_relations_from_chunk` reads). -/
structure TextChunk where
  chunk_id : List Char
  content : List Char
deriving DecidableEq

/-- One parsed candidate relation from the LLM response (the dictionaries
returned by `_parse_relations_response`, after the `.get(…, '')`
defaulting done in `_filter_valid_relations`). -/
structure RelRecord where
  subject : List Char
  predicate : List Char
  object : List Char
  context : List Char
deriving DecidableEq

/-- The keys of `self.relation_schema` (the closed relation vocabulary),
in dictionary insertion order. -/
def relationSchemaKeys : List (List Char) :=
  ["is_a".data, "part_of".data, "subclass_of".data,
   "uses".data, "implements".data, "optimizes".data, "applies_to".data, "solves".data,
   "requires".data, "depends_on".data, "based_on".data, "extends".data,
   "outperforms".data, "compared_to".data, "equivalent_to".data,
   "precedes".data, "evolved_from".data,
   "trained_on".data, "evaluated_on".data, "measures".data, "predicts".data,
   "created_by".data, "proposed_by".data, "developed_by".data]

/-- The test `subject.lower() in entity.lower() or entity.lower() in subject.lower()`. -/
def substrEither (a e : List Char) : Bool :=
  pyIn (pyLower a) (pyLower e) || pyIn (pyLower e) (pyLower a)

/-- Case-insensitive string equality (`x.lower() == y.lower()`). -/
def lowerEq (a b : List Char) : Bool := pyLower a == pyLower b

/-- Model of `RelationExtractor._filter_valid_relations`. -/
def filterValidRelations (relations : List RelRecord) (entities : List (List Char)) :
    List RelRecord :=
  relations.filterMap (fun relation =>
    let subject := pyStrip relation.subject
    let predicate := pyStrip relation.predicate
    let obj := pyStrip relation.object
    let context := pyStrip relation.context
    if subject = [] ∨ predicate = [] ∨ obj = [] then none
    else
      let subject_valid := entities.any (fun e => substrEither subject e)
      let object_valid := entities.any (fun e => substrEither obj e)
      let predicate_valid := relationSchemaKeys.any (fun p => lowerEq p predicate)
      if subject_valid && object_valid && predicate_valid then
        let subject_exact := ((entities.find? (fun e => substrEither subject e))).getD subject
        let object_exact := ((entities.find? (fun e => substrEither obj e))).getD obj
        let predicate_exact :=
          ((relationSchemaKeys.find? (fun p => lowerEq p predicate))).getD predicate
        some ⟨subject_exact, predicate_exact, object_exact,
              if context = [] then "Extracted from text".data else context⟩
      else none)

/-- Model of `RelationExtractor.extract_relations_from_chunk`.  The raw candidate
list `raw_relations` is the oracle input standing for the parsed LLM
response (`_parse_relations_response(response['message']['content'])`). -/
def extractRelationsFromChunk (chunk : TextChunk) (entities_in_chunk : List (List Char))
    (raw_relations : List RelRecord) : List Relation :=
  if entities_in_chunk.length < 2 then []
  else
    (filterValidRelations raw_relations entities_in_chunk).map (fun rel_data =>
      ⟨rel_data.subject, rel_data.predicate, rel_data.object,
       chunk.chunk_id, 1.0, rel_data.context⟩)

/-! ## `entity_normalizer.py` : `EntityNormalizer` -/

/-- The `EntityCandidate` dataclass from `entity_extractor.py`. -/
structure EntityCandidate where
  text : List Char
  label : List Char
  start_char : Int
  end_char : Int
  chunk_id : List Char
  source : List Char
  confidence : ℚ
deriving DecidableEq

/-- The `NormalizedEntity` dataclass. -/
structure NormalizedEntity where
  canonical_name : List Char
  entity_type : List Char
  aliases : List (List Char)
  frequency : Nat
  confidence : ℚ
  source_chunks : List (List Char)
  original_labels : List (List Char)
deriving DecidableEq

/-- One parsed record from the LLM normalization response (a dictionary
with `canonical_name`, `type` and `aliases`, after the `.get` defaulting
done in `normalize_entities`). -/
structure NormRecord where
  canonical_name : List Char
  entity_type : List Char
  aliases : List (List Char)
deriving DecidableEq

/-- Deduplication preserving first occurrence.  This models both
`Counter` key order (insertion order) and the repository's
`list(set(…))` conversions, whose set iteration order we fix to
first-occurrence order. -/
def dedupKeepFirst {α : Type} [BEq α] (l : List α) : List α :=
  l.foldl (fun acc x => if acc.contains x then acc else acc ++ [x]) []

/-- Splitting a list into chunks of `n` (the Python loop
`for i in range(0, len(l), n): batches.append(l[i:i+n])`, for `n > 0`). -/
def chunkList {α : Type} (n : Nat) (l : List α) : List (List α) :=
  (List.range ((l.length + n - 1) / n)).map (fun i => (l.drop (i * n)).take n)

/-- Model of `EntityNormalizer._group_similar_entities` (with the default
`batch_size = 20`): count stripped entity texts, keep those with count
≥ 2 or length > 3, split into batches of 20. -/
def groupSimilarEntities (entities : List EntityCandidate) : List (List (List Char)) :=
  let texts := entities.map (fun e => pyStrip e.text)
  let frequent_entities :=
    (dedupKeepFirst texts).filter (fun t => 2 ≤ texts.count t || 3 < t.length)
  chunkList 20 frequent_entities

/-- The count `sum(1 for e in entities if e.text.strip().lower() == alias.lower())`. -/
def aliasOccurrences (entities : List EntityCandidate) (a : List Char) : Nat :=
  (entities.filter (fun e => lowerEq (pyStrip e.text) a)).length

/-- The `NormalizedEntity` built for one parsed record inside
`normalize_entities` (frequency, source chunks and original labels are
recomputed from the full candidate list). -/
def buildNormalizedEntity (entities : List EntityCandidate) (r : NormRecord) :
    NormalizedEntity :=
  let canonical_name := pyStrip r.canonical_name
  let names := canonical_name :: r.aliases
  let total_freq := (names.map (aliasOccurrences entities)).sum
  let matched := entities.filter (fun e => names.any (fun a => lowerEq (pyStrip e.text) a))
  ⟨canonical_name, r.entity_type, r.aliases, total_freq, 1.0,
   dedupKeepFirst (matched.map (fun e => e.chunk_id)),
   dedupKeepFirst (matched.map (fun e => e.label))⟩

/-- Python dictionary assignment `m[k] = v`: replace in place if the key
exists, else append. -/
def dictInsert (m : List (List Char × NormalizedEntity)) (k : List Char)
    (v : NormalizedEntity) : List (List Char × NormalizedEntity) :=
  if m.any (fun pr => pr.1 == k) then
    m.map (fun pr => if pr.1 == k then (k, v) else pr)
  else m ++ [(k, v)]

/-- Python dictionary lookup `m.get(k)`. -/
def dictFind (m : List (List Char × NormalizedEntity)) (k : List Char) :
    Option NormalizedEntity :=
  (m.find? (fun pr => pr.1 == k)).map Prod.snd

/-- Processing of one parsed record in the `for norm_entity in
normalized_batch` loop: skip when the stripped canonical name is empty,
else insert/overwrite under it. -/
def processRecord (entities : List EntityCandidate)
    (m : List (List Char × NormalizedEntity)) (r : NormRecord) :
    List (List Char × NormalizedEntity) :=
  let canonical_name := pyStrip r.canonical_name
  if canonical_name = [] then m
  else dictInsert m canonical_name (buildNormalizedEntity entities r)

/-- Model of `EntityNormalizer.normalize_entities`.  `responses i` is the oracle
input standing for the parsed LLM response
(`_parse_llm_response(response['message']['content'])`) for batch `i`;
the Python dict is modelled as an insertion-ordered association list. -/
def normalizeEntities (entities : List EntityCandidate)
    (responses : Nat → List NormRecord) : List (List Char × NormalizedEntity) :=
  let batches := groupSimilarEntities entities
  (List.range batches.length).foldl
    (fun m i => (responses i).foldl (processRecord entities) m) []

/-- All parsed records a run processes, in processing order. -/
def processedRecords (entities : List EntityCandidate)
    (responses : Nat → List NormRecord) : List NormRecord :=
  (List.range (groupSimilarEntities entities).length).flatMap responses

/-- The last record in a list whose stripped canonical name is `n`
(the record whose write wins in the output dictionary). -/
def findLastNamed (n : List Char) : List NormRecord → Option NormRecord
  | [] => none
  | r :: t =>
    match findLastNamed n t with
    | some r0 => some r0
    | none => if pyStrip r.canonical_name == n then some r else none

/-! ## `kg_builder.py` : `KnowledgeGraphBuilder` and
     `kg_executor.py` : `KGExecutor.get_stats`

An `rdflib.Graph` is a set of triples; we model it as a duplicate-free
list with `addT` (add-if-absent), which preserves the set semantics of
`graph.add`. -/

/-- An RDF node: URI reference, plain literal, or typed numeric literal. -/
inductive Node where
  | uri (s : List Char)
  | lit (s : List Char)
  | litNat (n : Nat)          -- Literal(·, datatype=XSD.integer)
  | litRat (q : ℚ)            -- Literal(·, datatype=XSD.float)
deriving DecidableEq

abbrev Triple := Node × Node × Node

abbrev Graph := List Triple

/-- Model of `rdflib.Graph.add` (set insertion). -/
def addT (g : Graph) (t : Triple) : Graph := if t ∈ g then g else g ++ [t]

/-- Namespace `http://ml-kg.org/ontology/`. -/
def mlNS : List Char := "http://ml-kg.org/ontology/".data

/-- Namespace `http://ml-kg.org/entity/`. -/
def entityNS : List Char := "http://ml-kg.org/entity/".data

/-- Namespace `http://ml-kg.org/relation/`. -/
def relationNS : List Char := "http://ml-kg.org/relation/".data

/-- The URI `self.ML[name]`. -/
def mlU (s : String) : Node := Node.uri (mlNS ++ s.data)

def rdfType : Node := Node.uri "http://www.w3.org/1999/02/22-rdf-syntax-ns#type".data

def rdfsLabel : Node := Node.uri "http://www.w3.org/2000/01/rdf-schema#label".data

def rdfsComment : Node := Node.uri "http://www.w3.org/2000/01/rdf-schema#comment".data

def rdfsSubClassOf : Node := Node.uri "http://www.w3.org/2000/01/rdf-schema#subClassOf".data

def owlClass : Node := Node.uri "http://www.w3.org/2002/07/owl#Class".data

def owlObjectProperty : Node := Node.uri "http://www.w3.org/2002/07/owl#ObjectProperty".data

/-- Helper for `collapseWs`: the flag records whether the previous
character was whitespace (i.e. the run already emitted its underscore). -/
def collapseWsAux : Bool → List Char → List Char
  | _, [] => []
  | inRun, c :: t =>
    if isPySpace c then
      if inRun then collapseWsAux true t else '_' :: collapseWsAux true t
    else c :: collapseWsAux false t

/-- Model of `re.sub(r'\s+', '_', ·)`: collapse each whitespace run to one underscore. -/
def collapseWs (s : List Char) : List Char := collapseWsAux false s

/-- The local token of `KnowledgeGraphBuilder._create_entity_uri`:
strip characters outside `[\w\s-]`, collapse whitespace to underscores,
lowercase, strip leading/trailing underscores. -/
def createEntityUriToken (entity_name : List Char) : List Char :=
  let clean_name := entity_name.filter (fun c => isPyWord c || isPySpace c || c == '-')
  let clean_name := collapseWs clean_name
  pyStripChar '_' (pyLower clean_name)

/-- Model of `KnowledgeGraphBuilder._create_entity_uri`. -/
def createEntityUri (entity_name : List Char) : Node :=
  Node.uri (entityNS ++ createEntityUriToken entity_name)

/-- Model of `KnowledgeGraphBuilder._create_relation_uri`. -/
def createRelationUri (relation_name : List Char) : Node :=
  Node.uri (relationNS ++ pyLower relation_name)

/-- The substitution `·.replace('_', ' ')`. -/
def underscoreToSpace (s : List Char) : List Char :=
  s.map (fun c => if c == '_' then ' ' else c)

/-- The `main_classes` list inside `add_ontology_schema`. -/
def mainClasses : List (String × String) :=
  [("Algorithm", "Machine Learning Algorithm"),
   ("Concept", "Machine Learning Concept"),
   ("Person", "Person or Researcher"),
   ("Organization", "Organization or Institution"),
   ("Software", "Software or Tool"),
   ("Metric", "Evaluation Metric"),
   ("Dataset", "Dataset or Data Source"),
   ("Publication", "Academic Publication")]

/-- The `main_properties` list inside `add_ontology_schema`. -/
def mainProperties : List (String × String) :=
  [("is_a", "is a type of"),
   ("part_of", "is part of"),
   ("uses", "uses or utilizes"),
   ("implements", "implements"),
   ("optimizes", "optimizes"),
   ("measures", "measures or evaluates"),
   ("created_by", "was created by"),
   ("applies_to", "applies to")]

/-- The triples `add_ontology_schema` adds, in insertion order. -/
def ontologySchemaTriples : List Triple :=
  [(mlU "Entity", rdfType, owlClass),
   (mlU "Entity", rdfsLabel, Node.lit "Machine Learning Entity".data)]
  ++ mainClasses.flatMap (fun pr =>
      [(Node.uri (mlNS ++ pyLower pr.1.data), rdfType, owlClass),
       (Node.uri (mlNS ++ pyLower pr.1.data), rdfsLabel, Node.lit pr.1.data),
       (Node.uri (mlNS ++ pyLower pr.1.data), rdfsComment, Node.lit pr.2.data),
       (Node.uri (mlNS ++ pyLower pr.1.data), rdfsSubClassOf, mlU "Entity")])
  ++ mainProperties.flatMap (fun pr =>
      [(createRelationUri pr.1.data, rdfType, owlObjectProperty),
       (createRelationUri pr.1.data, rdfsLabel, Node.lit (underscoreToSpace pr.1.data)),
       (createRelationUri pr.1.data, rdfsComment, Node.lit pr.2.data)])

/-- Model of `KnowledgeGraphBuilder.add_ontology_schema`. -/
def addOntologySchema (g : Graph) : Graph := ontologySchemaTriples.foldl addT g

/-- Model of `KnowledgeGraphBuilder._add_relation_property`: add the
`ObjectProperty` declaration only when its `rdf:type` triple is absent. -/
def addRelationPropertyTriples (g : Graph) (relation_type : List Char) : Graph :=
  let property_uri := createRelationUri relation_type
  if (property_uri, rdfType, owlObjectProperty) ∈ g then g
  else addT (addT g (property_uri, rdfType, owlObjectProperty))
            (property_uri, rdfsLabel, Node.lit (underscoreToSpace relation_type))

/-- The reification node `self.ENTITY[f"rel_{n}"]` minted for the `n`-th
relation (where `n` is the running `relations_added` counter). -/
def relInstanceUri (n : Nat) : Node :=
  Node.uri (entityNS ++ ("rel_" ++ toString n).data)

/-- The body of the `for relation in relations` loop of `add_relations`:
main triple plus the reification triples for metadata. -/
def addOneRelation (g : Graph) (n : Nat) (r : Relation) : Graph :=
  let subject_uri := createEntityUri r.subject
  let object_uri := createEntityUri r.object
  let g := addRelationPropertyTriples g r.predicate
  let predicate_uri := createRelationUri r.predicate
  let g := addT g (subject_uri, predicate_uri, object_uri)
  let ri := relInstanceUri n
  addT (addT (addT (addT (addT (addT (addT g
    (ri, rdfType, mlU "Relation"))
    (ri, mlU "subject", subject_uri))
    (ri, mlU "predicate", predicate_uri))
    (ri, mlU "object", object_uri))
    (ri, mlU "context", Node.lit r.context))
    (ri, mlU "sourceChunk", Node.lit r.chunk_id))
    (ri, mlU "confidence", Node.litRat r.confidence)

/-- Model of `KnowledgeGraphBuilder.add_relations`, threading the
`relations_added` counter; returns the graph and the final counter. -/
def addRelations (g : Graph) (n : Nat) (rels : List Relation) : Graph × Nat :=
  rels.foldl (fun gn r => (addOneRelation gn.1 gn.2 r, gn.2 + 1)) (g, n)

/-- SPARQL `STR(?x)`. -/
def nodeStr : Node → List Char
  | Node.uri s => s
  | Node.lit s => s
  | Node.litNat n => (toString n).data
  | Node.litRat q => (toString q).data

/-- The `FILTER(STRSTARTS(STR(?entity), STR(entity:)))` test of
`KGExecutor.get_stats`. -/
def isEntityNode (nd : Node) : Bool := listStartsWith (nodeStr nd) entityNS

/-- The statistic `total_entities` in `KGExecutor.get_stats`:
`COUNT(DISTINCT ?entity) WHERE { ?entity ?p ?o . FILTER(STRSTARTS(…)) }` —
the number of distinct triple subjects whose URI starts with the entity
namespace. -/
def totalEntities (g : Graph) : Nat :=
  (dedupKeepFirst ((g.filter (fun t => isEntityNode t.1)).map (fun t => t.1))).length

/-! ## Concrete inputs used to instantiate the theorems -/

/-- A sample chunk. -/
def sampleChunk : TextChunk :=
  ⟨"chunk_001".data, "Neural networks are trained using gradient descent".data⟩

/-- Sample `entities_in_chunk`. -/
def sampleEntities : List (List Char) :=
  ["Neural Network".data, "Gradient Descent".data]

/-- A sample parsed LLM relation response. -/
def sampleRaws : List RelRecord :=
  [⟨"neural network".data, "USES".data, "gradient descent".data,
    "Neural networks are trained using gradient descent".data⟩]

/-- The relation `extract_relations_from_chunk` produces on the sample. -/
def sampleRelation : Relation :=
  ⟨"Neural Network".data, "uses".data, "Gradient Descent".data, "chunk_001".data, 1.0,
   "Neural networks are trained using gradient descent".data⟩

/-- A single entity candidate whose text is frequent enough to be batched. -/
def oneCandidate : List EntityCandidate :=
  [⟨"Fooo".data, "CUSTOM".data, 0, 4, "chunk_001".data, "custom_pattern".data, 1.0⟩]

/-- An LLM normalization response whose canonical name matches no input
candidate text. -/
def barResponses : Nat → List NormRecord :=
  fun i => if i = 0 then [⟨"Bar".data, "OTHER".data, []⟩] else []

/-- An LLM normalization response whose canonical name does match the
input candidate's text. -/
def fooResponses : Nat → List NormRecord :=
  fun i => if i = 0 then [⟨"Fooo".data, "CONCEPT".data, []⟩] else []

/-- 21 distinct entity candidates, enough to force two batches of 20. -/
def manyCandidates : List EntityCandidate :=
  (List.range 21).map (fun i =>
    ⟨"ent".data ++ [Char.ofNat (65 + i)], "CUSTOM".data, 0, 4, "chunk_001".data,
     "custom_pattern".data, 1.0⟩)

/-- A record for canonical name "Gradient Descent" in batch 0. -/
def gdRecord1 : NormRecord := ⟨"Gradient Descent".data, "ALGORITHM".data, ["GD".data]⟩

/-- A different record for the same canonical name in batch 1. -/
def gdRecord2 : NormRecord :=
  ⟨"Gradient Descent".data, "CONCEPT".data, ["SGD".data, "GD".data]⟩

/-- Responses yielding `gdRecord1` for batch 0 and `gdRecord2` for batch 1. -/
def gdResponses : Nat → List NormRecord :=
  fun i => if i = 0 then [gdRecord1] else if i = 1 then [gdRecord2] else []

/-! # Theorems

## Generic helper lemmas -/

theorem exists_find?_of_any {α : Type} (p : α → Bool) (l : List α)
    (h : l.any p = true) : ∃ x, l.find? p = some x := by
  induction l with
  | nil => simp at h
  | cons a t ih =>
    by_cases hp : p a = true
    · exact ⟨a, by simp [List.find?_cons, hp]⟩
    · simp only [List.any_cons, Bool.or_eq_true] at h
      rcases h with h | h

      · exact absurd h hp
      · obtain ⟨x, hx⟩ := ih h
        exact ⟨x, by simp [List.find?_cons, Bool.of_not_eq_true hp, hx]⟩

theorem foldl_preserve {β γ : Type} (P : β → Prop) (f : β → γ → β)
    (hf : ∀ b c, P b → P (f b c)) : ∀ (l : List γ) (b : β), P b → P (l.foldl f b) := by
  intro l
  induction l with
  | nil => intro b hb; simpa using hb
  | cons c t ih => intro b hb; exact ih (f b c) (hf b c hb)

theorem mem_dedupKeepFirst_of_mem {α : Type} [BEq α] [LawfulBEq α] {a : α} :
    ∀ {l acc : List α}, a ∈ acc ∨ a ∈ l →
      a ∈ l.foldl (fun acc x => if acc.contains x then acc else acc ++ [x]) acc := by
  intro l
  induction l with
  | nil => intro acc h; simpa using h.resolve_right (by simp)
  | cons x t ih =>
    intro acc h
    simp only [List.foldl_cons]
    by_cases hc : acc.contains x = true
    · simp only [hc, if_pos]
      refine ih ?_
      rcases h with h | h
      · exact Or.inl h
      · rcases List.mem_cons.mp h with rfl | h
        · exact Or.inl (by simpa using hc)
        · exact Or.inr h
    · simp only [hc, if_neg, Bool.false_eq_true, not_false_iff]
      refine ih ?_
      rcases h with h | h
      · exact Or.inl (List.mem_append_left _ h)
      · rcases List.mem_cons.mp h with rfl | h
        · exact Or.inl (List.mem_append_right _ (List.mem_singleton_self _))
        · exact Or.inr h

/-! ## C6 : idempotence of `add_ontology_schema` -/

theorem mem_addT_self (g : Graph) (t : Triple) : t ∈ addT g t := by
  unfold addT
  split
  · assumption
  · exact List.mem_append_right _ (List.mem_singleton_self _)

theorem mem_addT_of_mem {g : Graph} {t : Triple} (u : Triple) (h : t ∈ g) :
    t ∈ addT g u := by
  unfold addT
  split
  · exact h
  · exact List.mem_append_left _ h

theorem addT_of_mem {g : Graph} {t : Triple} (h : t ∈ g) : addT g t = g := by
  unfold addT
  simp [h]

theorem mem_foldl_addT_of_mem {t : Triple} :
    ∀ (ts : List Triple) (g : Graph), t ∈ g → t ∈ ts.foldl addT g := by
  intro ts
  induction ts with
  | nil => intro g h; simpa using h
  | cons u us ih => intro g h; exact ih (addT g u) (mem_addT_of_mem u h)

theorem mem_foldl_addT_of_mem_list {t : Triple} :
    ∀ (ts : List Triple) (g : Graph), t ∈ ts → t ∈ ts.foldl addT g := by
  intro ts
  induction ts with
  | nil => intro g h; simp at h
  | cons u us ih =>
    intro g h
    rcases List.mem_cons.mp h with rfl | h
    · exact mem_foldl_addT_of_mem us (addT g t) (mem_addT_self g t)
    · exact ih (addT g u) h

theorem foldl_addT_of_all_mem :
    ∀ (ts : List Triple) (g : Graph), (∀ t ∈ ts, t ∈ g) → ts.foldl addT g = g := by
  intro ts
  induction ts with
  | nil => intro g _; rfl
  | cons u us ih =>
    intro g h
    have hu : u ∈ g := h u (List.mem_cons_self u us)
    simp only [List.foldl_cons, addT_of_mem hu]
    exact ih g (fun t ht => h t (List.mem_cons_of_mem u ht))

/-- C6: `add_ontology_schema` is idempotent: for every graph state,
running it twice produces exactly the same triple set as running it
once — no class or property declaration is duplicated, because
`rdflib.Graph.add` has set semantics. -/
theorem addOntologySchema_idempotent (g : Graph) :
    addOntologySchema (addOntologySchema g) = addOntologySchema g := by
  unfold addOntologySchema
  exact foldl_addT_of_all_mem _ _
    (fun t ht => mem_foldl_addT_of_mem_list _ g ht)

/-! ## C7 : `process_question("Quem criou Support Vector Machine?")` -/

/-- C7: processing "Quem criou Support Vector Machine?" yields intent
`WHO_CREATED` with the single entity `support_vector_machine` (no
earlier pattern in the `WHAT_IS`, `WHAT_USES`, `WHAT_IS_TYPE_OF`
priority order matches first), basic confidence 0.8, and the lowercased
stripped question as `raw_question`. -/
theorem processQuestion_quem_criou_svm :
    processQuestion "Quem criou Support Vector Machine?".data =
      some ⟨QueryType.WHO_CREATED, ["support_vector_machine".data], 0.8,
            "quem criou support vector machine?".data⟩ := rfl

/-! ## C2 : entity normalization vs. entity-URI derivation -/

/-- C2 counterexample: the claim that the Query Processor's entity
normalization agrees with the Builder's URI derivation **for every
entity name** is false: on "The Algorithm" the normalization removes
the stop-word "the" (giving `algorithm`) while the URI derivation keeps
it (giving `the_algorithm`). -/
theorem normalize_ne_uriToken_the_algorithm :
    normalizeEntityName "The Algorithm".data ≠
      createEntityUriToken "The Algorithm".data := by decide

/-- C2 amended: the two derivations do agree on the particular instances
the claim names: `uri("Support Vector Machine")` has local token
`support_vector_machine`, the normalization of that same name is the
same token, and processing the question "what is a support vector
machine" extracts exactly that token as its entity. -/
theorem uriToken_and_normalize_agree_on_svm :
    createEntityUriToken "Support Vector Machine".data = "support_vector_machine".data ∧
    normalizeEntityName "Support Vector Machine".data = "support_vector_machine".data ∧
    processQuestion "what is a support vector machine".data =
      some ⟨QueryType.WHAT_IS, ["support_vector_machine".data], 0.8,
            "what is a support vector machine".data⟩ :=
  ⟨rfl, rfl, rfl⟩

/-! ## C4 / C10 : `process_question` fallback behavior -/

theorem dropWhile_head_false {α : Type} (p : α → Bool) :
    ∀ (l : List α) (c : α) (t : List α), l.dropWhile p = c :: t → p c = false := by
  intro l
  induction l with
  | nil => intro c t h; simp at h
  | cons a u ih =>
    intro c t h
    by_cases hp : p a = true
    · rw [List.dropWhile_cons_of_pos hp] at h
      exact ih c t h
    · rw [List.dropWhile_cons_of_neg hp] at h
      cases h
      exact Bool.of_not_eq_true hp

theorem exists_nonspace_of_pyStrip_ne_nil (s : List Char) (h : pyStrip s ≠ []) :
    ∃ c ∈ pyStrip s, isPySpace c = false := by
  unfold pyStrip at h ⊢
  rcases hl : (s.dropWhile isPySpace).reverse.dropWhile isPySpace with _ | ⟨c, t⟩
  · rw [hl] at h
    simp at h
  · exact ⟨c, List.mem_reverse.mpr (List.mem_cons_self c t),
      dropWhile_head_false isPySpace _ c t hl⟩

theorem pySplitWsAux_ne_nil :
    ∀ (s cur : List Char), (cur ≠ [] ∨ ∃ c ∈ s, isPySpace c = false) →
      pySplitWsAux s cur ≠ [] := by
  intro s
  induction s with
  | nil =>
    intro cur h
    have hcur : cur ≠ [] := by
      rcases h with h | ⟨c, hc, _⟩
      · exact h
      · simp at hc
    simp [pySplitWsAux, hcur]
  | cons c t ih =>
    intro cur h
    by_cases hc : isPySpace c = true
    · by_cases hcur : cur = []
      · subst hcur
        simp only [pySplitWsAux, hc, if_pos, if_true]
        refine ih [] (Or.inr ?_)
        rcases h with h | ⟨x, hx, hxs⟩
        · exact absurd rfl h
        · rcases List.mem_cons.mp hx with rfl | hx
          · rw [hc] at hxs; cases hxs
          · exact ⟨x, hx, hxs⟩
      · simp [pySplitWsAux, hc, hcur]
    · simp only [pySplitWsAux, Bool.of_not_eq_true hc]
      refine ih (c :: cur) (Or.inl (by simp))

theorem pySplitWs_ne_nil_of_pyStrip_ne_nil (s : List Char) (h : pyStrip s ≠ []) :
    pySplitWs (pyStrip s) ≠ [] := by
  obtain ⟨c, hc, hcs⟩ := exists_nonspace_of_pyStrip_ne_nil s h
  exact pySplitWsAux_ne_nil (pyStrip s) [] (Or.inr ⟨c, hc, hcs⟩)

theorem firstMatch_entities_ne_nil (q : List Char) (ex : Caps → List (List Char)) :
    ∀ (ps : List RE) (ents : List (List Char)),
      firstMatch q ex ps = some ents → ents ≠ [] := by
  intro ps
  induction ps with
  | nil => intro ents h; simp [firstMatch] at h
  | cons p ps ih =>
    intro ents h
    cases hs : reSearch p q with
    | some caps =>
      have heq : firstMatch q ex (p :: ps) =
          (if ex caps ≠ [] then some (ex caps) else firstMatch q ex ps) := by
        simp only [firstMatch]
        rw [hs]
      rw [heq] at h
      by_cases hne : ex caps ≠ []
      · rw [if_pos hne] at h
        cases h
        exact hne
      · rw [if_neg hne] at h
        exact ih ents h
    | none =>
      have heq : firstMatch q ex (p :: ps) = firstMatch q ex ps := by
        simp only [firstMatch]
        rw [hs]
      rw [heq] at h
      exact ih ents h

theorem matchChecks_entities_ne_nil (q : List Char) :
    ∀ (l : List (List RE × QueryType × (Caps → List (List Char))))
      (qt : QueryType) (ents : List (List Char)),
      matchChecks q l = some (qt, ents) → ents ≠ [] := by
  intro l
  induction l with
  | nil => intro qt ents h; simp [matchChecks] at h
  | cons chk rest ih =>
    intro qt ents h
    obtain ⟨pats, qt0, ex⟩ := chk
    cases hf : firstMatch q ex pats with
    | some e0 =>
      have heq : matchChecks q ((pats, qt0, ex) :: rest) = some (qt0, e0) := by
        simp only [matchChecks]
        rw [hf]
      rw [heq] at h
      cases h
      exact firstMatch_entities_ne_nil q ex pats _ hf
    | none =>
      have heq : matchChecks q ((pats, qt0, ex) :: rest) = matchChecks q rest := by
        simp only [matchChecks]
        rw [hf]
      rw [heq] at h
      exact ih qt ents h

/-- C4 counterexample: on the empty string, `process_question` reaches
the fallback with `question.split() == []`, so `question.split()[-1]`
raises `IndexError` (modelled as `none`) — the claim that it never
raises is false. -/
theorem processQuestion_empty_raises : processQuestion "".data = none := rfl

/-- C4 amended: for every question that still contains a
whitespace-separated token after lowercasing and stripping,
`process_question` never raises; and whenever no pattern matches, the
returned intent has query type `WHAT_IS`, confidence 0.3, and a
non-empty entity list holding the question's last token. -/
theorem processQuestion_total_on_nonempty (question : List Char)
    (h : pyStrip (pyLower question) ≠ []) :
    ∃ intent, processQuestion question = some intent ∧ intent.entities ≠ [] ∧
      (matchChecks (pyStrip (pyLower question)) intentChecks = none →
        intent.query_type = QueryType.WHAT_IS ∧ intent.confidence = 0.3 ∧
        ∃ w, (pySplitWs (pyStrip (pyLower question))).getLast? = some w ∧
          intent.entities = [w]) := by
  cases hm : matchChecks (pyStrip (pyLower question)) intentChecks with
  | some r =>
    obtain ⟨qt, ents⟩ := r
    exact ⟨⟨qt, ents, 0.8, pyStrip (pyLower question)⟩, by simp [processQuestion, hm],
      matchChecks_entities_ne_nil _ _ qt ents hm, fun hc => absurd hc (by simp)⟩
  | none =>
    have hsplit := pySplitWs_ne_nil_of_pyStrip_ne_nil (pyLower question) h
    obtain ⟨w, hw⟩ : ∃ w, (pySplitWs (pyStrip (pyLower question))).getLast? = some w := by
      cases hlast : (pySplitWs (pyStrip (pyLower question))).getLast? with
      | none => exact absurd (List.getLast?_eq_none_iff.mp hlast) hsplit
      | some w => exact ⟨w, rfl⟩
    exact ⟨⟨QueryType.WHAT_IS, [w], 0.3, pyStrip (pyLower question)⟩,
      by simp [processQuestion, hm, hw], by simp,
      fun _ => ⟨rfl, rfl, w, hw, rfl⟩⟩

/-- Witness for C4 (amended): the question "zzz" is non-empty after
stripping, and the theorem applies to it. -/
theorem processQuestion_total_witness :
    pyStrip (pyLower "zzz".data) ≠ [] ∧
    (∃ intent, processQuestion "zzz".data = some intent ∧ intent.entities ≠ [] ∧
      (matchChecks (pyStrip (pyLower "zzz".data)) intentChecks = none →
        intent.query_type = QueryType.WHAT_IS ∧ intent.confidence = 0.3 ∧
        ∃ w, (pySplitWs (pyStrip (pyLower "zzz".data))).getLast? = some w ∧
          intent.entities = [w])) :=
  ⟨by decide, processQuestion_total_on_nonempty "zzz".data (by decide)⟩

/-- C10: on the fallback path (no pattern matched), the single returned
entity is the last whitespace token of the lowercased stripped question,
taken verbatim — `_normalize_entity_name` is not applied to it. -/
theorem processQuestion_fallback_verbatim_last_token (question w : List Char)
    (hm : matchChecks (pyStrip (pyLower question)) intentChecks = none)
    (hw : (pySplitWs (pyStrip (pyLower question))).getLast? = some w) :
    processQuestion question =
      some ⟨QueryType.WHAT_IS, [w], 0.3, pyStrip (pyLower question)⟩ := by
  simp [processQuestion, hm, hw]

/-- Witness for C10: "xyzzy?" matches no pattern; the fallback entity is
the verbatim token "xyzzy?", which contains a character outside
`[a-z0-9_]` (the trailing question mark `_normalize_entity_name` would
have stripped). -/
theorem processQuestion_fallback_witness :
    matchChecks (pyStrip (pyLower "xyzzy?".data)) intentChecks = none ∧
    (pySplitWs (pyStrip (pyLower "xyzzy?".data))).getLast? = some "xyzzy?".data ∧
    "xyzzy?".data ≠ normalizeEntityName "xyzzy?".data ∧
    processQuestion "xyzzy?".data =
      some ⟨QueryType.WHAT_IS, ["xyzzy?".data], 0.3, "xyzzy?".data⟩ := by
  have h1 : matchChecks (pyStrip (pyLower "xyzzy?".data)) intentChecks = none := by decide
  have h2 : (pySplitWs (pyStrip (pyLower "xyzzy?".data))).getLast? =
      some "xyzzy?".data := by decide
  exact ⟨h1, h2, by decide,
    processQuestion_fallback_verbatim_last_token "xyzzy?".data "xyzzy?".data h1 h2⟩

/-! ## C1 : every extracted relation is validated against the schema
     and the chunk's entity list -/

/-- C1: the relation schema has 24 names, and every relation returned by
`extract_relations_from_chunk` has a predicate rewritten to one of those
24 schema spellings and a subject and object rewritten to (the first
case-insensitively substring-matching) entity of `entities_in_chunk`;
candidates failing any check are filtered out, so nothing else appears. -/
theorem extractRelations_validated (chunk : TextChunk) (entities : List (List Char))
    (raws : List RelRecord) (r : Relation)
    (hr : r ∈ extractRelationsFromChunk chunk entities raws) :
    relationSchemaKeys.length = 24 ∧
    r.predicate ∈ relationSchemaKeys ∧
    r.subject ∈ entities ∧ r.object ∈ entities := by
  by_cases hlt : entities.length < 2
  · simp only [extractRelationsFromChunk, if_pos hlt] at hr
    simp at hr
  · simp only [extractRelationsFromChunk, if_neg hlt] at hr
    obtain ⟨rd, hrd, hf⟩ := List.mem_map.mp hr
    obtain ⟨raw, _, hg⟩ := List.mem_filterMap.mp hrd
    simp only [filterValidRelations] at hg
    by_cases h0 : pyStrip raw.subject = [] ∨ pyStrip raw.predicate = [] ∨
        pyStrip raw.object = []
    · rw [if_pos h0] at hg
      cases hg
    · rw [if_neg h0] at hg
      by_cases hv : (entities.any (fun e => substrEither (pyStrip raw.subject) e) &&
          entities.any (fun e => substrEither (pyStrip raw.object) e) &&
          relationSchemaKeys.any (fun p => lowerEq p (pyStrip raw.predicate))) = true
      · rw [if_pos hv] at hg
        have h1 := Bool.and_eq_true_iff.mp hv
        have h2 := Bool.and_eq_true_iff.mp h1.1
        have hsv := h2.1
        have hov := h2.2
        have hpv := h1.2
        obtain ⟨es, hes⟩ := exists_find?_of_any _ _ hsv
        obtain ⟨eo, heo⟩ := exists_find?_of_any _ _ hov
        obtain ⟨pk, hpk⟩ := exists_find?_of_any _ _ hpv
        cases hg
        subst hf
        refine ⟨rfl, ?_, ?_, ?_⟩
        · simpa [hpk] using List.mem_of_find?_eq_some hpk
        · simpa [hes] using List.mem_of_find?_eq_some hes
        · simpa [heo] using List.mem_of_find?_eq_some heo
      · rw [if_neg hv] at hg
        cases hg

/-- Witness for C1: a concrete chunk, entity list, and raw LLM response
on which the extractor emits exactly `sampleRelation`, whose fields all
pass the validated-membership checks. -/
theorem extractRelations_validated_witness :
    sampleRelation ∈ extractRelationsFromChunk sampleChunk sampleEntities sampleRaws ∧
    (relationSchemaKeys.length = 24 ∧
     sampleRelation.predicate ∈ relationSchemaKeys ∧
     sampleRelation.subject ∈ sampleEntities ∧
     sampleRelation.object ∈ sampleEntities) := by
  have he : extractRelationsFromChunk sampleChunk sampleEntities sampleRaws =
      [sampleRelation] := rfl
  have hm : sampleRelation ∈ extractRelationsFromChunk sampleChunk sampleEntities
      sampleRaws := by
    rw [he]
    exact List.mem_singleton_self _
  exact ⟨hm, extractRelations_validated sampleChunk sampleEntities sampleRaws
    sampleRelation hm⟩

/-! ## Structure of `normalize_entities` results (shared by C3, C5, C9) -/

theorem mem_dictInsert {m : List (List Char × NormalizedEntity)} {k : List Char}
    {v : NormalizedEntity} {pr : List Char × NormalizedEntity}
    (h : pr ∈ dictInsert m k v) : pr ∈ m ∨ pr = (k, v) := by
  unfold dictInsert at h
  split at h
  · obtain ⟨pr0, hpr0, hf⟩ := List.mem_map.mp h
    by_cases hk : (pr0.1 == k) = true
    · rw [if_pos hk] at hf
      exact Or.inr hf.symm
    · rw [if_neg hk] at hf
      exact Or.inl (hf ▸ hpr0)
  · rcases List.mem_append.mp h with h | h
    · exact Or.inl h
    · exact Or.inr (by simpa using h)

theorem mem_processRecord {entities : List EntityCandidate}
    {m : List (List Char × NormalizedEntity)} {r : NormRecord}
    {pr : List Char × NormalizedEntity} (h : pr ∈ processRecord entities m r) :
    pr ∈ m ∨ pr = (pyStrip r.canonical_name, buildNormalizedEntity entities r) := by
  simp only [processRecord] at h
  split at h
  · exact Or.inl h
  · exact mem_dictInsert h

theorem mem_normalizeEntities {entities : List EntityCandidate}
    {responses : Nat → List NormRecord} {pr : List Char × NormalizedEntity}
    (h : pr ∈ normalizeEntities entities responses) :
    ∃ r : NormRecord,
      pr = (pyStrip r.canonical_name, buildNormalizedEntity entities r) := by
  refine (foldl_preserve
    (fun m => ∀ pr0 ∈ m, ∃ r : NormRecord,
      pr0 = (pyStrip r.canonical_name, buildNormalizedEntity entities r))
    (fun m i => (responses i).foldl (processRecord entities) m)
    ?_ _ [] (by simp)) pr h
  intro m i hm
  refine foldl_preserve
    (fun m => ∀ pr0 ∈ m, ∃ r : NormRecord,
      pr0 = (pyStrip r.canonical_name, buildNormalizedEntity entities r))
    (processRecord entities) ?_ (responses i) m hm
  intro m0 r hm0 pr0 hpr0
  rcases mem_processRecord hpr0 with h1 | h1
  · exact hm0 pr0 h1
  · exact ⟨r, h1⟩

/-! ## C9 : the confidence field is the constant 1.0 -/

/-- C9: every `NormalizedEntity` produced by `normalize_entities` and
every `Relation` produced by `extract_relations_from_chunk` carries
confidence exactly 1.0, whatever the inputs and LLM responses are. -/
theorem confidence_constant_one :
    (∀ (entities : List EntityCandidate) (responses : Nat → List NormRecord)
       (pr : List Char × NormalizedEntity),
        pr ∈ normalizeEntities entities responses → pr.2.confidence = 1.0) ∧
    (∀ (chunk : TextChunk) (entities : List (List Char)) (raws : List RelRecord)
       (r : Relation),
        r ∈ extractRelationsFromChunk chunk entities raws → r.confidence = 1.0) := by
  constructor
  · intro entities responses pr h
    obtain ⟨r, rfl⟩ := mem_normalizeEntities h
    rfl
  · intro chunk entities raws r h
    by_cases hlt : entities.length < 2
    · simp only [extractRelationsFromChunk, if_pos hlt] at h
      simp at h
    · simp only [extractRelationsFromChunk, if_neg hlt] at h
      obtain ⟨rd, _, hf⟩ := List.mem_map.mp h
      subst hf
      rfl

/-- Witness for C9: a concrete normalized entity and a concrete
extracted relation, both with confidence 1.0. -/
theorem confidence_constant_one_witness :
    (("Bar".data, buildNormalizedEntity oneCandidate ⟨"Bar".data, "OTHER".data, []⟩) ∈
        normalizeEntities oneCandidate barResponses ∧
      (buildNormalizedEntity oneCandidate ⟨"Bar".data, "OTHER".data, []⟩).confidence
        = 1.0) ∧
    (sampleRelation ∈ extractRelationsFromChunk sampleChunk sampleEntities sampleRaws ∧
      sampleRelation.confidence = 1.0) := by
  have h1 : normalizeEntities oneCandidate barResponses =
      [("Bar".data, buildNormalizedEntity oneCandidate ⟨"Bar".data, "OTHER".data, []⟩)] :=
    rfl
  have hm1 : ("Bar".data,
      buildNormalizedEntity oneCandidate ⟨"Bar".data, "OTHER".data, []⟩) ∈
      normalizeEntities oneCandidate barResponses := by
    rw [h1]
    exact List.mem_singleton_self _
  have h2 : extractRelationsFromChunk sampleChunk sampleEntities sampleRaws =
      [sampleRelation] := rfl
  have hm2 : sampleRelation ∈
      extractRelationsFromChunk sampleChunk sampleEntities sampleRaws := by
    rw [h2]
    exact List.mem_singleton_self _
  exact ⟨⟨hm1, confidence_constant_one.1 oneCandidate barResponses _ hm1⟩,
         ⟨hm2, confidence_constant_one.2 sampleChunk sampleEntities sampleRaws
           sampleRelation hm2⟩⟩

/-! ## C3 : frequency bounds for normalized entities -/

/-- C3 counterexample: `frequency ≥ 1` is false in general — when the
LLM returns a canonical name ("Bar") none of whose aliases
case-insensitively matches any input candidate text, the summed
frequency is 0. -/
theorem frequency_ge_one_fails :
    ¬ (∀ pr ∈ normalizeEntities oneCandidate barResponses, 1 ≤ pr.2.frequency) := by
  intro h
  have h1 : normalizeEntities oneCandidate barResponses =
      [("Bar".data, buildNormalizedEntity oneCandidate ⟨"Bar".data, "OTHER".data, []⟩)] :=
    rfl
  have hm : ("Bar".data,
      buildNormalizedEntity oneCandidate ⟨"Bar".data, "OTHER".data, []⟩) ∈
      normalizeEntities oneCandidate barResponses := by
    rw [h1]
    exact List.mem_singleton_self _
  have h2 := h _ hm
  have h0 : (1 : Nat) ≤ 0 := h2
  exact absurd h0 (by decide)

/-- C3 amended: for every entry of the returned mapping, the frequency
dominates the occurrence count of each single alias (the canonical name
included), since it is the sum of all those counts; consequently
`frequency ≥ 1` does hold whenever at least one alias actually occurs
among the input candidates — but not otherwise. -/
theorem frequency_dominates_alias_counts (entities : List EntityCandidate)
    (responses : Nat → List NormRecord) (pr : List Char × NormalizedEntity)
    (hmem : pr ∈ normalizeEntities entities responses) :
    (∀ a ∈ pr.1 :: pr.2.aliases, aliasOccurrences entities a ≤ pr.2.frequency) ∧
    ((∃ a ∈ pr.1 :: pr.2.aliases, 1 ≤ aliasOccurrences entities a) →
      1 ≤ pr.2.frequency) := by
  obtain ⟨r, rfl⟩ := mem_normalizeEntities hmem
  have hfreq : (buildNormalizedEntity entities r).frequency =
      ((pyStrip r.canonical_name :: r.aliases).map (aliasOccurrences entities)).sum :=
    rfl
  have hdom : ∀ a ∈ pyStrip r.canonical_name :: r.aliases,
      aliasOccurrences entities a ≤ (buildNormalizedEntity entities r).frequency := by
    intro a ha
    rw [hfreq]
    exact List.single_le_sum (fun x _ => Nat.zero_le x) _
      (List.mem_map_of_mem (aliasOccurrences entities) ha)
  refine ⟨hdom, ?_⟩
  rintro ⟨a, ha, h1⟩
  exact le_trans h1 (hdom a ha)

/-- Witness for C3 (amended): on a concrete run where the canonical name
"Fooo" matches the single input candidate, the entry's frequency (1)
dominates each alias's occurrence count. -/
theorem frequency_dominates_witness :
    (("Fooo".data, buildNormalizedEntity oneCandidate ⟨"Fooo".data, "CONCEPT".data, []⟩) ∈
        normalizeEntities oneCandidate fooResponses) ∧
    ((∀ a ∈ "Fooo".data ::
        (buildNormalizedEntity oneCandidate ⟨"Fooo".data, "CONCEPT".data, []⟩).aliases,
        aliasOccurrences oneCandidate a ≤
          (buildNormalizedEntity oneCandidate ⟨"Fooo".data, "CONCEPT".data, []⟩).frequency) ∧
     ((∃ a ∈ "Fooo".data ::
        (buildNormalizedEntity oneCandidate ⟨"Fooo".data, "CONCEPT".data, []⟩).aliases,
        1 ≤ aliasOccurrences oneCandidate a) →
       1 ≤ (buildNormalizedEntity oneCandidate ⟨"Fooo".data, "CONCEPT".data, []⟩).frequency)) := by
  have h1 : normalizeEntities oneCandidate fooResponses =
      [("Fooo".data,
        buildNormalizedEntity oneCandidate ⟨"Fooo".data, "CONCEPT".data, []⟩)] := rfl
  have hm : ("Fooo".data,
      buildNormalizedEntity oneCandidate ⟨"Fooo".data, "CONCEPT".data, []⟩) ∈
      normalizeEntities oneCandidate fooResponses := by
    rw [h1]
    exact List.mem_singleton_self _
  exact ⟨hm, frequency_dominates_alias_counts oneCandidate fooResponses _ hm⟩

/-! ## C5 : last write wins on canonical-name collisions -/

theorem dictFind_cons (p : List Char × NormalizedEntity)
    (rest : List (List Char × NormalizedEntity)) (k : List Char) :
    dictFind (p :: rest) k = if p.1 == k then some p.2 else dictFind rest k := by
  by_cases hp : (p.1 == k) = true
  · simp [dictFind, List.find?_cons, hp]
  · simp [dictFind, List.find?_cons, hp]

theorem dictInsert_eq_map_of_any (m : List (List Char × NormalizedEntity))
    (k : List Char) (v : NormalizedEntity)
    (h : m.any (fun pr => pr.1 == k) = true) :
    dictInsert m k v = m.map (fun pr => if pr.1 == k then (k, v) else pr) := by
  simp [dictInsert, h]

theorem dictInsert_eq_append_of_not_any (m : List (List Char × NormalizedEntity))
    (k : List Char) (v : NormalizedEntity)
    (h : m.any (fun pr => pr.1 == k) = false) :
    dictInsert m k v = m ++ [(k, v)] := by
  simp [dictInsert, h]

theorem dictFind_map_replace_self (k : List Char) (v : NormalizedEntity) :
    ∀ (t : List (List Char × NormalizedEntity)),
      t.any (fun pr => pr.1 == k) = true →
      dictFind (t.map (fun pr => if pr.1 == k then (k, v) else pr)) k = some v := by
  intro t
  induction t with
  | nil => intro h; simp at h
  | cons p t ih =>
    intro h
    by_cases hp : (p.1 == k) = true
    · simp only [List.map_cons, if_pos hp, dictFind_cons]
      simp
    · simp only [List.any_cons, hp, Bool.false_or] at h
      simp only [List.map_cons, if_neg hp, dictFind_cons, if_neg hp]
      exact ih h

theorem dictFind_map_replace_ne (k k2 : List Char) (v : NormalizedEntity)
    (hne : ¬ k2 = k) :
    ∀ (t : List (List Char × NormalizedEntity)),
      dictFind (t.map (fun pr => if pr.1 == k then (k, v) else pr)) k2 =
        dictFind t k2 := by
  intro t
  induction t with
  | nil => rfl
  | cons p t ih =>
    by_cases hp : (p.1 == k) = true
    · have hpk : p.1 = k := by simpa using hp
      have hk2 : (k == k2) = false := by
        simp only [beq_eq_false_iff_ne, ne_eq]
        exact fun h => hne h.symm
      have hp2 : (p.1 == k2) = false := by rw [hpk]; exact hk2
      simp only [List.map_cons, if_pos hp, dictFind_cons]
      rw [if_neg (by simp [hk2]), if_neg (by simp [hp2])]
      exact ih
    · simp only [List.map_cons, if_neg hp, dictFind_cons]
      rw [ih]

theorem dictFind_append_single_self (k : List Char) (v : NormalizedEntity) :
    ∀ (m : List (List Char × NormalizedEntity)),
      m.any (fun pr => pr.1 == k) = false →
      dictFind (m ++ [(k, v)]) k = some v := by
  intro m
  induction m with
  | nil => intro _; simp [dictFind_cons]
  | cons p t ih =>
    intro h
    simp only [List.any_cons, Bool.or_eq_false_iff] at h
    rw [List.cons_append, dictFind_cons, if_neg (by simp [h.1])]
    exact ih h.2

theorem dictFind_append_single_ne (k k2 : List Char) (v : NormalizedEntity)
    (hne : ¬ k2 = k) :
    ∀ (m : List (List Char × NormalizedEntity)),
      dictFind (m ++ [(k, v)]) k2 = dictFind m k2 := by
  intro m
  induction m with
  | nil =>
    simp only [List.nil_append, dictFind_cons]
    rw [if_neg (by simp; exact fun h => hne h.symm)]
  | cons p t ih =>
    rw [List.cons_append, dictFind_cons, dictFind_cons, ih]

theorem dictFind_dictInsert_self (m : List (List Char × NormalizedEntity))
    (k : List Char) (v : NormalizedEntity) :
    dictFind (dictInsert m k v) k = some v := by
  cases hany : m.any (fun pr => pr.1 == k) with
  | true =>
    rw [dictInsert_eq_map_of_any m k v hany]
    exact dictFind_map_replace_self k v m hany
  | false =>
    rw [dictInsert_eq_append_of_not_any m k v hany]
    exact dictFind_append_single_self k v m hany

theorem dictFind_dictInsert_ne (m : List (List Char × NormalizedEntity))
    (k k2 : List Char) (v : NormalizedEntity) (hne : ¬ k2 = k) :
    dictFind (dictInsert m k v) k2 = dictFind m k2 := by
  cases hany : m.any (fun pr => pr.1 == k) with
  | true =>
    rw [dictInsert_eq_map_of_any m k v hany]
    exact dictFind_map_replace_ne k k2 v hne m
  | false =>
    rw [dictInsert_eq_append_of_not_any m k v hany]
    exact dictFind_append_single_ne k k2 v hne m

/-- The dictionary after a fold of `processRecord` maps `n` to the
`NormalizedEntity` built from the **last** processed record with
stripped canonical name `n` (and to its previous value when no record
has that name): Python dict assignment is last-write-wins. -/
theorem dictFind_foldl_processRecord (entities : List EntityCandidate)
    (n : List Char) (hn : n ≠ []) :
    ∀ (rs : List NormRecord) (m : List (List Char × NormalizedEntity)),
      dictFind (rs.foldl (processRecord entities) m) n =
        (findLastNamed n rs).elim (dictFind m n)
          (fun r => some (buildNormalizedEntity entities r)) := by
  intro rs
  induction rs with
  | nil => intro m; rfl
  | cons r t ih =>
    intro m
    rw [List.foldl_cons, ih (processRecord entities m r)]
    cases hl : findLastNamed n t with
    | some r0 =>
      have hcons : findLastNamed n (r :: t) = some r0 := by
        simp [findLastNamed, hl]
      rw [hcons]
      rfl
    | none =>
      have hcons : findLastNamed n (r :: t) =
          (if pyStrip r.canonical_name == n then some r else none) := by
        simp [findLastNamed, hl]
      rw [hcons]
      by_cases hr : (pyStrip r.canonical_name == n) = true
      · have heq : pyStrip r.canonical_name = n := by simpa using hr
        rw [if_pos hr]
        simp only [processRecord, Option.elim_none, Option.elim_some]
        rw [if_neg (heq ▸ hn), heq]
        exact dictFind_dictInsert_self m n _
      · have hne2 : ¬ pyStrip r.canonical_name = n := by simpa using hr
        rw [if_neg hr]
        simp only [processRecord, Option.elim_none]
        by_cases h0 : pyStrip r.canonical_name = []
        · rw [if_pos h0]
        · rw [if_neg h0]
          exact dictFind_dictInsert_ne m _ n _ (fun h => hne2 h.symm)

theorem normalizeEntities_eq_foldl_processedRecords
    (entities : List EntityCandidate) (responses : Nat → List NormRecord) :
    normalizeEntities entities responses =
      (processedRecords entities responses).foldl (processRecord entities) [] := by
  simp only [normalizeEntities, processedRecords]
  generalize (groupSimilarEntities entities).length = nb
  induction nb with
  | zero => rfl
  | succ k ih =>
    rw [show List.range (k + 1) = List.range k ++ [k] from List.range_succ k,
      List.foldl_append, List.flatMap_append, List.foldl_append, ih]
    simp

theorem nodupKeys_dictInsert (m : List (List Char × NormalizedEntity))
    (k : List Char) (v : NormalizedEntity)
    (h : (m.map Prod.fst).Nodup) : ((dictInsert m k v).map Prod.fst).Nodup := by
  cases hany : m.any (fun pr => pr.1 == k) with
  | true =>
    rw [dictInsert_eq_map_of_any m k v hany, List.map_map]
    have hmaps : m.map (Prod.fst ∘ fun pr => if pr.1 == k then (k, v) else pr) =
        m.map Prod.fst := by
      refine List.map_congr_left ?_
      intro pr _
      simp only [Function.comp_apply]
      by_cases hp : (pr.1 == k) = true
      · rw [if_pos hp]
        have hpk : pr.1 = k := by simpa using hp
        simp [hpk]
      · rw [if_neg hp]
    rw [hmaps]
    exact h
  | false =>
    rw [dictInsert_eq_append_of_not_any m k v hany, List.map_append]
    have hnot : k ∉ m.map Prod.fst := by
      intro hk
      obtain ⟨pr, hpr, hfst⟩ := List.mem_map.mp hk
      have := List.any_eq_false.mp hany pr hpr
      simp [hfst] at this
    simp only [List.map_cons, List.map_nil]
    rw [List.nodup_append]
    refine ⟨h, List.nodup_singleton k, ?_⟩
    intro x hx hk2
    rcases List.mem_singleton.mp hk2 with rfl
    exact hnot hx

theorem nodupKeys_normalizeEntities (entities : List EntityCandidate)
    (responses : Nat → List NormRecord) :
    ((normalizeEntities entities responses).map Prod.fst).Nodup := by
  refine foldl_preserve (fun m => (m.map Prod.fst).Nodup)
    (fun m i => (responses i).foldl (processRecord entities) m)
    ?_ _ [] (by simp)
  intro m i hm
  refine foldl_preserve (fun m => (m.map Prod.fst).Nodup)
    (processRecord entities) ?_ (responses i) m hm
  intro m0 r hm0
  simp only [processRecord]
  split
  · exact hm0
  · exact nodupKeys_dictInsert m0 _ _ hm0

theorem count_eq_one_of_nodup_mem {α : Type} [BEq α] [LawfulBEq α] :
    ∀ (l : List α) (a : α), l.Nodup → a ∈ l → l.count a = 1 := by
  intro l
  induction l with
  | nil => intro a _ h; simp at h
  | cons x t ih =>
    intro a hnd hmem
    rcases List.mem_cons.mp hmem with rfl | hmem2
    · rw [List.count_cons_self]
      have hnot : a ∉ t := (List.nodup_cons.mp hnd).1
      simp [List.count_eq_zero_of_not_mem hnot]
    · have hne : x ≠ a := fun h => (List.nodup_cons.mp hnd).1 (h ▸ hmem2)
      rw [List.count_cons_of_ne (fun h => hne h.symm)]
      exact ih a (List.nodup_cons.mp hnd).2 hmem2

theorem count_keys_eq_one_of_dictFind (m : List (List Char × NormalizedEntity))
    (n : List Char) (v : NormalizedEntity) (hnd : (m.map Prod.fst).Nodup)
    (h : dictFind m n = some v) : (m.map Prod.fst).count n = 1 := by
  unfold dictFind at h
  cases hf : m.find? (fun pr => pr.1 == n) with
  | none => rw [hf] at h; cases h
  | some pr =>
    have hmem : pr ∈ m := List.mem_of_find?_eq_some hf
    have hkey : pr.1 = n := by simpa using List.find?_some hf
    exact count_eq_one_of_nodup_mem _ n hnd
      (hkey ▸ List.mem_map_of_mem Prod.fst hmem)

/-- C5: when two batches of one `normalize_entities` run both yield a
record with the same (non-empty, stripped) canonical name `n`, and the
second batch's record `r2` is the last record carrying `n`, the
returned mapping holds exactly one entry under `n`, namely the
`NormalizedEntity` built from `r2` — last write wins. -/
theorem normalizeEntities_last_write_wins (entities : List EntityCandidate)
    (responses : Nat → List NormRecord) (i j : Nat) (r1 r2 : NormRecord)
    (n : List Char) (hij : i < j) (hj : j < (groupSimilarEntities entities).length)
    (h1 : r1 ∈ responses i) (h1n : pyStrip r1.canonical_name = n)
    (h2 : r2 ∈ responses j) (h2n : pyStrip r2.canonical_name = n) (hn : n ≠ [])
    (hlast : findLastNamed n (processedRecords entities responses) = some r2) :
    dictFind (normalizeEntities entities responses) n =
      some (buildNormalizedEntity entities r2) ∧
    ((normalizeEntities entities responses).map Prod.fst).count n = 1 := by
  have hfind : dictFind (normalizeEntities entities responses) n =
      some (buildNormalizedEntity entities r2) := by
    rw [normalizeEntities_eq_foldl_processedRecords,
      dictFind_foldl_processRecord entities n hn (processedRecords entities responses) [],
      hlast]
    rfl
  exact ⟨hfind, count_keys_eq_one_of_dictFind _ n _
    (nodupKeys_normalizeEntities entities responses) hfind⟩

/-- Witness for C5: 21 candidates force two batches; batch 0 yields
`gdRecord1` and batch 1 yields `gdRecord2`, both under canonical name
"Gradient Descent"; the final mapping holds exactly the entity built
from `gdRecord2`. -/
theorem normalizeEntities_last_write_wins_witness :
    ((0 : Nat) < 1 ∧ 1 < (groupSimilarEntities manyCandidates).length ∧
     gdRecord1 ∈ gdResponses 0 ∧ gdRecord2 ∈ gdResponses 1 ∧
     findLastNamed "Gradient Descent".data
       (processedRecords manyCandidates gdResponses) = some gdRecord2) ∧
    (dictFind (normalizeEntities manyCandidates gdResponses) "Gradient Descent".data =
       some (buildNormalizedEntity manyCandidates gdRecord2) ∧
     ((normalizeEntities manyCandidates gdResponses).map Prod.fst).count
       "Gradient Descent".data = 1) := by
  refine ⟨⟨by decide, by decide, by decide, by decide, by decide⟩, ?_⟩
  exact normalizeEntities_last_write_wins manyCandidates gdResponses 0 1 gdRecord1
    gdRecord2 "Gradient Descent".data (by decide) (by decide) (by decide) (by decide)
    (by decide) (by decide) (by decide) (by decide)

/-! ## C8 : reification nodes live in the entity namespace and are
     counted by `get_stats`'s `total_entities` -/

theorem listStartsWith_append (p r : List Char) : listStartsWith (p ++ r) p = true := by
  induction p with
  | nil => simp [listStartsWith]
  | cons c t ih => simp [listStartsWith, ih]

theorem mem_addRelationPropertyTriples {g : Graph} {t : Triple} (rt : List Char)
    (h : t ∈ g) : t ∈ addRelationPropertyTriples g rt := by
  simp only [addRelationPropertyTriples]
  split
  · exact h
  · exact mem_addT_of_mem _ (mem_addT_of_mem _ h)

theorem mem_addOneRelation {g : Graph} {t : Triple} (n : Nat) (r : Relation)
    (h : t ∈ g) : t ∈ addOneRelation g n r := by
  simp only [addOneRelation]
  exact mem_addT_of_mem _ (mem_addT_of_mem _ (mem_addT_of_mem _ (mem_addT_of_mem _
    (mem_addT_of_mem _ (mem_addT_of_mem _ (mem_addT_of_mem _ (mem_addT_of_mem _
      (mem_addRelationPropertyTriples r.predicate h))))))))

theorem rel_triple_mem_addOneRelation (g : Graph) (n : Nat) (r : Relation) :
    (relInstanceUri n, rdfType, mlU "Relation") ∈ addOneRelation g n r := by
  simp only [addOneRelation]
  exact mem_addT_of_mem _ (mem_addT_of_mem _ (mem_addT_of_mem _ (mem_addT_of_mem _
    (mem_addT_of_mem _ (mem_addT_of_mem _ (mem_addT_self _ _))))))

theorem mem_addRelations_fst {t : Triple} :
    ∀ (rs : List Relation) (g : Graph) (n : Nat), t ∈ g → t ∈ (addRelations g n rs).1 := by
  intro rs
  induction rs with
  | nil => intro g n h; exact h
  | cons r rs ih =>
    intro g n h
    unfold addRelations at ih ⊢
    rw [List.foldl_cons]
    exact ih _ _ (mem_addOneRelation n r h)

theorem rel_triple_mem_addRelations :
    ∀ (rels : List Relation) (g : Graph) (start i : Nat), i < rels.length →
      (relInstanceUri (start + i), rdfType, mlU "Relation") ∈
        (addRelations g start rels).1 := by
  intro rels
  induction rels with
  | nil => intro g start i h; simp at h
  | cons r rs ih =>
    intro g start i h
    unfold addRelations at ih ⊢
    rw [List.foldl_cons]
    cases i with
    | zero =>
      simp only [Nat.add_zero]
      exact mem_addRelations_fst rs _ _ (rel_triple_mem_addOneRelation g start r)
    | succ i2 =>
      have hs : start + (i2 + 1) = (start + 1) + i2 := by omega
      rw [hs]
      exact ih (addOneRelation g start r) (start + 1) i2 (by simpa using h)

/-- C8: each relation added by `add_relations` mints its reification
node as `entity:rel_<n>` — a URI in the entity namespace — and that
node occurs as a triple subject, so `get_stats`'s `total_entities`
(distinct subjects with an entity-namespace URI) counts it in addition
to the actual entities: the statistic is not a pure entity count. -/
theorem relation_reification_counted (g : Graph) (start : Nat) (rels : List Relation)
    (i : Nat) (h : i < rels.length) :
    isEntityNode (relInstanceUri (start + i)) = true ∧
    (relInstanceUri (start + i), rdfType, mlU "Relation") ∈
      (addRelations g start rels).1 ∧
    relInstanceUri (start + i) ∈
      dedupKeepFirst (((addRelations g start rels).1.filter
        (fun t => isEntityNode t.1)).map (fun t => t.1)) ∧
    1 ≤ totalEntities (addRelations g start rels).1 := by
  have hent : isEntityNode (relInstanceUri (start + i)) = true := by
    unfold isEntityNode relInstanceUri nodeStr
    exact listStartsWith_append entityNS _
  have hmem := rel_triple_mem_addRelations rels g start i h
  have hmap : relInstanceUri (start + i) ∈
      ((addRelations g start rels).1.filter (fun t => isEntityNode t.1)).map
        (fun t => t.1) :=
    List.mem_map_of_mem _ (List.mem_filter.mpr ⟨hmem, hent⟩)
  have hdedup : relInstanceUri (start + i) ∈
      dedupKeepFirst (((addRelations g start rels).1.filter
        (fun t => isEntityNode t.1)).map (fun t => t.1)) :=
    mem_dedupKeepFirst_of_mem (Or.inr hmap)
  refine ⟨hent, hmem, hdedup, ?_⟩
  unfold totalEntities
  exact List.length_pos_of_mem hdedup

/-- Witness for C8: adding the single `sampleRelation` to the empty
graph mints `entity:rel_0`, which the entity-count query counts. -/
theorem relation_reification_counted_witness :
    (0 : Nat) < [sampleRelation].length ∧
    (isEntityNode (relInstanceUri (0 + 0)) = true ∧
     (relInstanceUri (0 + 0), rdfType, mlU "Relation") ∈
       (addRelations [] 0 [sampleRelation]).1 ∧
     relInstanceUri (0 + 0) ∈
       dedupKeepFirst ((((addRelations [] 0 [sampleRelation]).1).filter
         (fun t => isEntityNode t.1)).map (fun t => t.1)) ∧
     1 ≤ totalEntities (addRelations [] 0 [sampleRelation]).1) :=
  ⟨by decide, relation_reification_counted [] 0 [sampleRelation] 0 (by decide)⟩

end CLP

